import Mathlib

/-!
Verification of `dirnav` (src/src/main.rs), a terminal file browser.

The development shallowly embeds the core of `main.rs`:
  * `read_dir_entries`  — the directory lister (main.rs:192-227),
  * `load_file_preview` — the file preview loader (main.rs:236-309),
  * `App` and its transition functions (main.rs:68-189) together with the
    key dispatch of `run_app` (main.rs:446-484), and
  * the preview-pane part of `ui` (main.rs:374-398).

The filesystem and the syntax-highlighting engine are external
collaborators; they are modelled as explicit parameters (`FS`, and a
per-line highlighting function).  Paths are modelled as lists of
components of an absolute path: `[]` is the filesystem root (whose
`parent()` is `None`), `p ++ [c]` is `p.join(c)`.

Machine integers: the only place the Rust code can wrap is the
`scroll as u16` cast in `ui`; it is modelled with an explicit `% 2 ^ 16`.
-/

/-! ## Bytes and byte-wise string comparison

Rust compares `String`s by their UTF-8 bytes.  We model bytes as `Nat`
(values < 256 by construction of `utf8EncodeChar`). -/

/-- UTF-8 encoding of one unicode scalar value, as its list of bytes. -/
def utf8EncodeChar (c : Char) : List Nat :=
  let n := c.toNat
  if n < 0x80 then [n]
  else if n < 0x800 then [0xC0 + n / 64, 0x80 + n % 64]
  else if n < 0x10000 then
    [0xE0 + n / 4096, 0x80 + (n / 64) % 64, 0x80 + n % 64]
  else
    [0xF0 + n / 0x40000, 0x80 + (n / 4096) % 64, 0x80 + (n / 64) % 64, 0x80 + n % 64]

/-- The UTF-8 bytes of a string (Rust `str::as_bytes`). -/
def utf8Encode (s : String) : List Nat :=
  (s.data.map utf8EncodeChar).flatten

/-- Byte-wise (lexicographic) `≤` on byte lists: exactly
`cmp(a, b) != Ordering::Greater` for Rust slices. -/
def bytesLe : List Nat → List Nat → Bool
  | [], _ => true
  | _ :: _, [] => false
  | a :: as, b :: bs => decide (a < b) || (decide (a = b) && bytesLe as bs)

theorem bytesLe_total (x y : List Nat) : bytesLe x y = true ∨ bytesLe y x = true := by
  induction x generalizing y with
  | nil => exact Or.inl rfl
  | cons a as ih =>
    cases y with
    | nil => exact Or.inr rfl
    | cons b bs =>
      rcases Nat.lt_trichotomy a b with h | h | h
      · left; simp [bytesLe, h]
      · subst h
        rcases ih bs with h2 | h2
        · left; simp [bytesLe, h2]
        · right; simp [bytesLe, h2]
      · right; simp [bytesLe, h]

theorem bytesLe_trans {x y z : List Nat} (h1 : bytesLe x y = true)
    (h2 : bytesLe y z = true) : bytesLe x z = true := by
  induction x generalizing y z with
  | nil => rfl
  | cons a as ih =>
    cases y with
    | nil => simp [bytesLe] at h1
    | cons b bs =>
      cases z with
      | nil => simp [bytesLe] at h2
      | cons c cs =>
        simp only [bytesLe, Bool.or_eq_true, Bool.and_eq_true, decide_eq_true_eq] at h1 h2 ⊢
        rcases h1 with h1 | ⟨h1e, h1r⟩
        · rcases h2 with h2 | ⟨h2e, h2r⟩
          · exact Or.inl (Nat.lt_trans h1 h2)
          · exact Or.inl (h2e ▸ h1)
        · rcases h2 with h2 | ⟨h2e, h2r⟩
          · exact Or.inl (h1e ▸ h2)
          · exact Or.inr ⟨h1e.trans h2e, ih h1r h2r⟩

/-- Model of Rust `str::to_lowercase` (per-character lowercasing; `Char.toLower`
lowercases the ASCII range, which is the fragment targeted by the comments in the code:
"Apple" before "banana"). -/
def lowercaseStr (s : String) : String :=
  String.mk (s.data.map Char.toLower)

/-! ## Directory lister (main.rs:192-227) -/

/-- One entry in the current directory (main.rs:62-65). -/
structure DirEntry where
  name : String
  is_dir : Bool
deriving DecidableEq, Repr

/-- A raw entry as delivered by `fs::read_dir`: its file name and the result
of `entry.file_type().map(|ft| ft.is_dir())` (`none` models `Err`). -/
structure RawEntry where
  name : String
  fileType : Option Bool
deriving DecidableEq, Repr

/-- Absolute path, as the list of components below the root.
`[].parent() = None`; `(p ++ [c]) = p.join(c)`. -/
abbrev FsPath := List String

/-- Model of `syntect::highlighting::Color` (r, g, b, a). -/
structure SynColor where
  r : Nat
  g : Nat
  b : Nat
  a : Nat
deriving DecidableEq, Repr

/-- Model of `syntect::highlighting::FontStyle`, as its three flag bits. -/
structure SynFontStyle where
  bold : Bool
  italic : Bool
  underline : Bool
deriving DecidableEq, Repr

/-- A syntect style: foreground color and font style (the fields the code reads). -/
structure SynStyle where
  foreground : SynColor
  font_style : SynFontStyle
deriving DecidableEq, Repr

/-- The filesystem and highlighting collaborators, as explicit functions.
`readDir` yields the per-entry results of the iterator (the `Option` layer
models per-entry `Err`s, skipped by `.flatten()` in the source);
`hl` models the `HighlightLines` built from the extension-selected grammar,
applied to one line (`none` models `Err(_)` from `highlight_line`). -/
structure FS where
  readDir : FsPath → Except Unit (List (Option RawEntry))
  isDir : FsPath → Bool
  isFile : FsPath → Bool
  readFile : FsPath → Except String (List Nat)
  hl : FsPath → String → Option (List (SynStyle × String))

/-- Sort key of `sort_by` in main.rs:213-214: the lowercased name, compared
byte-wise (Rust `String::cmp` compares UTF-8 bytes). -/
def entryKey (e : DirEntry) : List Nat :=
  utf8Encode (lowercaseStr e.name)

/-- The comparator of main.rs:213-214 as a relation: lowercased names compared byte-wise, `cmp != Greater`. -/
def entryLe (a b : DirEntry) : Prop :=
  bytesLe (entryKey a) (entryKey b) = true

instance : DecidableRel entryLe := fun a b =>
  inferInstanceAs (Decidable (_ = true))

instance : IsTotal DirEntry entryLe :=
  ⟨fun a b => bytesLe_total (entryKey a) (entryKey b)⟩

instance : IsTrans DirEntry entryLe :=
  ⟨fun _ _ _ => bytesLe_trans⟩

/-- Read directory entries (main.rs:192-227): unreadable directory yields `[]`;
entries are classified (type-lookup failure defaults to "not a directory"),
each group sorted case-insensitively, `".."` prepended iff a parent exists,
then directories, then files. -/
def read_dir_entries (fs : FS) (path : FsPath) : List DirEntry :=
  match fs.readDir path with
  | .error _ => []
  | .ok read =>
    let es := (read.filterMap id).map
      (fun r => DirEntry.mk r.name (r.fileType.getD false))
    let dirs := es.filter (fun e => e.is_dir)
    let files := es.filter (fun e => !e.is_dir)
    let dirs := dirs.insertionSort entryLe
    let files := files.insertionSort entryLe
    (if path = [] then [] else [DirEntry.mk (String.mk ['.', '.']) true])
      ++ dirs ++ files

/-! ## Styled lines (ratatui `Span`/`Line`, and the syntect conversions,
main.rs:38-58 and 229-232) -/

/-- The ratatui text modifiers the code uses (main.rs:46-58). -/
structure Modifier where
  bold : Bool
  italic : Bool
  underline : Bool
deriving DecidableEq, Repr

def Modifier.empty : Modifier := ⟨false, false, false⟩

/-- ratatui `Style`, restricted to the fields the code sets. -/
structure RStyle where
  fg : Option (Nat × Nat × Nat)
  modifiers : Modifier
deriving DecidableEq, Repr

/-- Rust `Style::default()`: no foreground, no modifiers. -/
def RStyle.default : RStyle := ⟨none, Modifier.empty⟩

/-- A styled run of text (ratatui `Span`). -/
structure Span where
  text : String
  style : RStyle
deriving DecidableEq, Repr

/-- Rust `Span::raw`: default style. -/
def Span.raw (s : String) : Span := ⟨s, RStyle.default⟩

/-- A line is a sequence of styled spans (ratatui `Line`). -/
abbrev Line := List Span

/-- Build a plain `Line` from a string, single-style (main.rs:230-232). -/
def plain_line (s : String) : Line := [Span.raw s]

/-- main.rs:38-43: a fully transparent color contributes no ratatui color. -/
def syntect_color_to_ratatui (c : SynColor) : Option (Nat × Nat × Nat) :=
  if c.a = 0 then none else some (c.r, c.g, c.b)

/-- main.rs:46-58: the three font flags map independently. -/
def syntect_font_style_to_modifier (f : SynFontStyle) : Modifier :=
  { bold := f.bold, italic := f.italic, underline := f.underline }

/-- Conversion of one highlighted segment to a `Span` (main.rs:291-300).
`add_modifier` on the default (empty) modifier set is just the set itself. -/
def styledSpan (seg : SynStyle × String) : Span :=
  let style0 : RStyle := RStyle.default
  let style1 :=
    match syntect_color_to_ratatui seg.1.foreground with
    | some c => { style0 with fg := some c }
    | none => style0
  let mods := syntect_font_style_to_modifier seg.1.font_style
  let style2 := if mods ≠ Modifier.empty then { style1 with modifiers := mods } else style1
  Span.mk seg.2 style2

/-- One line of the preview body (main.rs:288-305): highlighted spans on
success, a single raw span holding the whole line on a highlighting error. -/
def highlightLine (hl : String → Option (List (SynStyle × String))) (line : String) : Line :=
  match hl line with
  | some segments => segments.map styledSpan
  | none => [Span.raw line]

/-! ## UTF-8 validation/decoding (Rust `String::from_utf8`) -/

/-- A UTF-8 continuation byte. -/
def isUtf8Cont (b : Nat) : Bool := decide (0x80 ≤ b) && decide (b ≤ 0xBF)

/-- One step of strict UTF-8 decoding: decode the scalar led by byte `b`,
returning it with the unconsumed remainder.  Follows the exact validity
rules of Rust `String::from_utf8`: shortest-form only (lead bytes
`0xC0`/`0xC1` and over-long 3/4-byte forms rejected), no surrogates
(`0xED A0..` rejected), maximum scalar `0x10FFFF` (lead bytes `0xF5..`
and `0xF4 90..` rejected). -/
def utf8DecodeStep (b : Nat) (rest : List Nat) : Option (Char × List Nat) :=
  if b < 0x80 then some (Char.ofNat b, rest)
  else if b < 0xC2 then none
  else if b < 0xE0 then
    match rest with
    | c1 :: rest2 =>
      if isUtf8Cont c1 then
        some (Char.ofNat ((b - 0xC0) * 0x40 + (c1 - 0x80)), rest2)
      else none
    | [] => none
  else if b < 0xF0 then
    match rest with
    | c1 :: c2 :: rest2 =>
      if isUtf8Cont c1 && isUtf8Cont c2
          && (decide (b ≠ 0xE0) || decide (0xA0 ≤ c1))
          && (decide (b ≠ 0xED) || decide (c1 ≤ 0x9F)) then
        some (Char.ofNat ((b - 0xE0) * 0x1000 + (c1 - 0x80) * 0x40 + (c2 - 0x80)), rest2)
      else none
    | _ => none
  else if b < 0xF5 then
    match rest with
    | c1 :: c2 :: c3 :: rest2 =>
      if isUtf8Cont c1 && isUtf8Cont c2 && isUtf8Cont c3
          && (decide (b ≠ 0xF0) || decide (0x90 ≤ c1))
          && (decide (b ≠ 0xF4) || decide (c1 ≤ 0x8F)) then
        some (Char.ofNat ((b - 0xF0) * 0x40000 + (c1 - 0x80) * 0x1000
          + (c2 - 0x80) * 0x40 + (c3 - 0x80)), rest2)
      else none
    | _ => none
  else none

theorem utf8DecodeStep_length {b : Nat} {rest : List Nat} {c : Char} {rest2 : List Nat}
    (h : utf8DecodeStep b rest = some (c, rest2)) : rest2.length ≤ rest.length := by
  unfold utf8DecodeStep at h
  repeat' split at h
  all_goals simp_all
  all_goals omega

/-- Strict UTF-8 decoding of a full byte list (Rust `String::from_utf8`),
as the iteration of `utf8DecodeStep`. -/
def utf8Decode (bs : List Nat) : Option (List Char) :=
  match bs with
  | [] => some []
  | b :: rest =>
    match hstep : utf8DecodeStep b rest with
    | none => none
    | some (c, rest2) => (utf8Decode rest2).map (fun cs => c :: cs)
termination_by bs.length
decreasing_by
  have := utf8DecodeStep_length hstep
  simp only [List.length_cons]
  omega

/-! ## `LinesWithEndings` (syntect util): split after each newline, keeping
the terminator; a final segment without a terminator is kept too. -/

def linesWithEndingsAux : List Char → List Char → List (List Char)
  | acc, [] => if acc = [] then [] else [acc.reverse]
  | acc, c :: cs =>
    if c = '\n' then (acc.reverse ++ [c]) :: linesWithEndingsAux [] cs
    else linesWithEndingsAux (c :: acc) cs

def linesWithEndings (s : String) : List String :=
  (linesWithEndingsAux [] s.data).map String.mk

/-! ## File preview loader (main.rs:236-309) -/

def MAX_PREVIEW_BYTES : Nat := 512 * 1024

/-- Rust `b.is_ascii_graphic()`: the range `0x21 ..= 0x7E`. -/
def is_ascii_graphic (b : Nat) : Bool := decide (0x21 ≤ b) && decide (b ≤ 0x7E)

/-- The whitespace bytes admitted by the binary heuristic of main.rs:259:
space, LF, CR and TAB. -/
def isPreviewWhitespace (b : Nat) : Bool :=
  decide (b = 0x20 ∨ b = 0x0A ∨ b = 0x0D ∨ b = 0x09)

/-- Load a preview of a file (main.rs:236-309).  The filesystem read is the
`readResult` argument (`fs::read(path)`); `hl` is the highlighting
collaborator for this path.  Returns `(lines, truncated)`. -/
def load_file_preview (hl : String → Option (List (SynStyle × String)))
    (readResult : Except String (List Nat)) : List Line × Bool :=
  match readResult with
  | .error e => ([plain_line (("Error reading: ") ++ e)], false)
  | .ok content =>
    if content = [] then ([plain_line ("(empty file)")], false)
    else
      let truncated := decide (content.length > MAX_PREVIEW_BYTES)
      let text := if content.length > MAX_PREVIEW_BYTES then content.take MAX_PREVIEW_BYTES
        else content
      let non_print := text.countP (fun b => !is_ascii_graphic b && !isPreviewWhitespace b)
      if non_print > text.length / 4 then ([plain_line ("(binary file)")], false)
      else
        match utf8Decode text with
        | none => ([plain_line ("(not valid UTF-8)")], false)
        | some chars =>
          ((linesWithEndings (String.mk chars)).map (highlightLine hl), truncated)

/-! ## Navigation state machine (main.rs:68-189) -/

/-- All state the UI needs to render and react to input (main.rs:68-85). -/
structure App where
  cwd : FsPath
  entries : List DirEntry
  selected : Nat
  show_hidden : Bool
  preview_path : Option FsPath
  preview_content : Option (List Line)
  preview_scroll : Nat
  preview_truncated : Bool
deriving DecidableEq, Repr

/-- Rust `starts_with` applied to the dot `char` pattern: the first
character of the string is a dot (false for the empty string). -/
def startsWithDot (s : String) : Bool := decide (s.data.head? = some ('.' : Char))

/-- Re-read the current directory (main.rs:104-112): filter hidden names
unless `show_hidden`, then clamp the selection
(`selected.min(entries.len().saturating_sub(1))`). -/
def App.refresh_entries (fs : FS) (a : App) : App :=
  let entries0 := read_dir_entries fs a.cwd
  let entries :=
    if a.show_hidden then entries0
    else entries0.filter (fun e =>
      decide (e.name = ("..")) || !(startsWithDot e.name))
  { a with entries := entries, selected := min a.selected (entries.length - 1) }

/-- Move selection up (main.rs:115-124): saturating decrement; the body of
the `if self.selected == 0` block is entirely commented out in the source. -/
def App.selection_up (a : App) : App :=
  if a.entries = [] then a
  else { a with selected := a.selected - 1 }

/-- Move selection down (main.rs:127-132): `(selected + 1).min(len - 1)`. -/
def App.selection_down (a : App) : App :=
  if a.entries = [] then a
  else { a with selected := min (a.selected + 1) (a.entries.length - 1) }

/-- Enter the selected entry (main.rs:135-166). -/
def App.enter_selected (fs : FS) (a : App) : App :=
  match a.entries[a.selected]? with
  | none => a
  | some entry =>
    if entry.name = ("..") then
      match a.cwd with
      | [] => a
      | _ :: _ =>
        App.refresh_entries fs { a with cwd := a.cwd.dropLast, selected := 0 }
    else if entry.is_dir then
      let next := a.cwd ++ [entry.name]
      if fs.isDir next then
        App.refresh_entries fs { a with cwd := next, selected := 0 }
      else a
    else
      let path := a.cwd ++ [entry.name]
      if fs.isFile path then
        let res := load_file_preview (fs.hl path) (fs.readFile path)
        { a with preview_content := some res.1, preview_path := some path,
                 preview_scroll := 0, preview_truncated := res.2 }
      else a

/-- Close the preview panel (main.rs:169-174). -/
def App.close_preview (a : App) : App :=
  { a with preview_path := none, preview_content := none,
           preview_scroll := 0, preview_truncated := false }

/-- Scroll preview down (main.rs:177-181); `saturating_add(1)` on `usize`. -/
def App.preview_scroll_down (a : App) : App :=
  if a.preview_content.isSome then { a with preview_scroll := a.preview_scroll + 1 }
  else a

/-- Scroll preview up (main.rs:184-188); `saturating_sub(1)`. -/
def App.preview_scroll_up (a : App) : App :=
  if a.preview_content.isSome then { a with preview_scroll := a.preview_scroll - 1 }
  else a

/-- Construction of the initial state, `App::new` (main.rs:88-101). -/
def App.new (fs : FS) (initial_cwd : FsPath) : App :=
  App.refresh_entries fs
    { cwd := initial_cwd, entries := [], selected := 0, show_hidden := false,
      preview_path := none, preview_content := none,
      preview_scroll := 0, preview_truncated := false }

/-- The key events `run_app` dispatches on (main.rs:446-484).  `activate`
covers `Enter` and `l`; `goParent` is `h`; `toggleHidden` is `H`;
`escape` is `Esc` (which terminates the loop when no preview is open —
the state is unchanged in that case); `q` and unbound keys leave the
state unchanged (`other`). -/
inductive Event where
  | up
  | down
  | charK
  | charJ
  | activate
  | goParent
  | toggleHidden
  | escape
  | other
deriving DecidableEq, Repr

/-- One iteration of the `run_app` match on `key.code` (main.rs:446-484). -/
def step (fs : FS) (ev : Event) (a : App) : App :=
  match ev with
  | .up => a.selection_up
  | .down => a.selection_down
  | .charK => if a.preview_path.isSome then a.preview_scroll_up else a.selection_up
  | .charJ => if a.preview_path.isSome then a.preview_scroll_down else a.selection_down
  | .activate => App.enter_selected fs a
  | .goParent =>
    match a.cwd with
    | [] => a
    | _ :: _ =>
      App.refresh_entries fs { a with cwd := a.cwd.dropLast, selected := 0 }
  | .toggleHidden => App.refresh_entries fs { a with show_hidden := !a.show_hidden }
  | .escape => if a.preview_path.isSome then a.close_preview else a
  | .other => a

/-! ## The preview pane of the renderer (main.rs:374-398) -/

/-- The preview pane as the renderer draws it: title, the scroll offset
actually applied, and the lines. -/
structure PreviewPane where
  title : String
  scroll : Nat
  lines : List Line
deriving DecidableEq, Repr

/-- The preview-pane part of `ui` (main.rs:374-398).  The pane rect exists
iff `preview_path.is_some()` (main.rs:339-347) and is rendered when
`preview_content` is also `Some`.  `scroll_max` is
`content.len().saturating_sub(rect.height)`; the applied offset is
`preview_scroll.min(scroll_max)`, then cast `as u16` (the `% 2 ^ 16`). -/
def renderPreviewPane (a : App) (rectHeight : Nat) : Option PreviewPane :=
  match a.preview_path, a.preview_content with
  | some p, some content =>
    let base := (p.getLast?).getD ("Preview")
    let title :=
      if a.preview_truncated then (" ") ++ base ++ (" (first 512 KB) ")
      else (" ") ++ base ++ (" ")
    let scroll_max := content.length - rectHeight
    let scroll := (min a.preview_scroll scroll_max) % 2 ^ 16
    some { title := title, scroll := scroll, lines := content }
  | _, _ => none

/-! ## Concrete fixtures used by witnesses and counterexamples -/

/-- A highlighter that always errs (the `Err(_)` arm of `highlight_line`). -/
def hlNone : String → Option (List (SynStyle × String)) := fun _ => none

/-- A filesystem on which every access fails. -/
def fsErr : FS :=
  { readDir := fun _ => .error ()
    isDir := fun _ => false
    isFile := fun _ => false
    readFile := fun _ => .error ("denied")
    hl := fun _ _ => none }

/-- A state with an empty listing. -/
def appEmpty : App :=
  { cwd := [], entries := [], selected := 0, show_hidden := false,
    preview_path := none, preview_content := none,
    preview_scroll := 0, preview_truncated := false }

/-- A state with an open one-line preview and an oversized stored scroll. -/
def appPreview : App :=
  { cwd := [], entries := [], selected := 0, show_hidden := false,
    preview_path := some [("f.txt")], preview_content := some [plain_line ("x")],
    preview_scroll := 99, preview_truncated := false }

/-! ## Claim theorems -/

/-- C8: Data-access errors never propagate out of the core: for every
unreadable directory, the lister returns an empty listing rather than an
error, and for every unreadable file, the preview loader returns a single
explanatory message line with `truncated == false`.  (Both operations are
total Lean functions, so neither aborts nor raises.) -/
theorem c8_error_absorption (fs : FS) (p : FsPath) (msg : String)
    (hdir : fs.readDir p = .error ()) (hfile : fs.readFile p = .error msg) :
    read_dir_entries fs p = [] ∧
    load_file_preview (fs.hl p) (fs.readFile p)
      = ([plain_line (("Error reading: ") ++ msg)], false) := by
  constructor
  · simp [read_dir_entries, hdir]
  · rw [hfile]
    simp [load_file_preview]

theorem c8_error_absorption_witness :
    read_dir_entries fsErr [] = [] ∧
    load_file_preview (fsErr.hl []) (fsErr.readFile [])
      = ([plain_line (("Error reading: ") ++ ("denied"))], false) :=
  c8_error_absorption fsErr [] ("denied") rfl rfl

/-- C3: for every state and viewport height, the scroll offset the renderer
actually applies to the preview pane lies in
`[0, max(0, styled_lines.len() - viewport_height)]`, even when the stored
`preview_scroll` exceeds that bound. -/
theorem c3_scroll_clamped (a : App) (rectHeight : Nat) (pane : PreviewPane)
    (h : renderPreviewPane a rectHeight = some pane) :
    0 ≤ (pane.scroll : ℤ) ∧
    (pane.scroll : ℤ) ≤ max 0 ((pane.lines.length : ℤ) - (rectHeight : ℤ)) := by
  refine ⟨Int.natCast_nonneg _, ?_⟩
  rcases hp : a.preview_path with _ | p <;> rcases hc : a.preview_content with _ | content <;>
    rw [renderPreviewPane, hp, hc] at h <;> simp only [Option.some.injEq] at h
  · exact absurd h (by simp)
  · exact absurd h (by simp)
  · exact absurd h (by simp)
  · subst h
    have h1 : min a.preview_scroll (content.length - rectHeight) % 2 ^ 16
        ≤ content.length - rectHeight :=
      le_trans (Nat.mod_le _ _) (min_le_right _ _)
    simp only [PreviewPane.scroll, PreviewPane.lines]
    omega

theorem c3_scroll_clamped_witness :
    renderPreviewPane appPreview 0
      = some { title := (" f.txt "), scroll := 1, lines := [plain_line ("x")] } ∧
    (0 ≤ ((1 : Nat) : ℤ) ∧
      ((1 : Nat) : ℤ) ≤ max 0 ((([plain_line ("x")] : List Line).length : ℤ) - ((0 : Nat) : ℤ))) :=
  ⟨by decide,
   c3_scroll_clamped appPreview 0 { title := (" f.txt "), scroll := 1, lines := [plain_line ("x")] }
     (by decide)⟩

/-- C7: on a non-empty listing, "move up" applied any number of times from
index 0 leaves the index at 0, and "move down" applied any number of times
from the last index leaves it at the last index (saturation, no wraparound). -/
theorem c7_selection_saturation (a : App) (n : Nat) (hne : a.entries ≠ []) :
    (App.selection_up^[n] { a with selected := 0 }).selected = 0 ∧
    (App.selection_down^[n] { a with selected := a.entries.length - 1 }).selected
      = a.entries.length - 1 := by
  constructor
  · have hfix : App.selection_up { a with selected := 0 } = { a with selected := 0 } := by
      simp [App.selection_up, hne]
    rw [Function.iterate_fixed hfix]
  · have hfix : App.selection_down { a with selected := a.entries.length - 1 }
        = { a with selected := a.entries.length - 1 } := by
      have hmin : min (a.entries.length - 1 + 1) (a.entries.length - 1)
          = a.entries.length - 1 := by omega
      simp [App.selection_down, hne, hmin]
    rw [Function.iterate_fixed hfix]

/-- C9: activating the current selection is atomic on failure: when the
listing is empty (no entry at the selection), when the selected `..` has no
parent, when the selected directory entry no longer resolves to a
directory, or when the selected file entry no longer resolves to a regular
file, the state is returned unchanged, every field included. -/
theorem c9_enter_atomic_failure (fs : FS) (a : App) :
    (a.entries = [] → App.enter_selected fs a = a) ∧
    (∀ e, a.entries[a.selected]? = some e → e.name = ("..") → a.cwd = [] →
      App.enter_selected fs a = a) ∧
    (∀ e, a.entries[a.selected]? = some e → e.name ≠ ("..") → e.is_dir = true →
      fs.isDir (a.cwd ++ [e.name]) = false → App.enter_selected fs a = a) ∧
    (∀ e, a.entries[a.selected]? = some e → e.name ≠ ("..") → e.is_dir = false →
      fs.isFile (a.cwd ++ [e.name]) = false → App.enter_selected fs a = a) := by
  refine ⟨?_, ?_, ?_, ?_⟩
  · intro h
    simp [App.enter_selected, h]
  · intro e he hname hcwd
    rw [App.enter_selected, he]
    rw [hcwd]
    simp [hname]
  · intro e he hname hdir hfs
    rw [App.enter_selected, he]
    simp [hname, hdir, hfs]
  · intro e he hname hdir hfs
    rw [App.enter_selected, he]
    simp [hname, hdir, hfs]

theorem c9_enter_atomic_failure_witness :
    App.enter_selected fsErr appEmpty = appEmpty :=
  (c9_enter_atomic_failure fsErr appEmpty).1 rfl

/-- A non-empty two-entry listing state. -/
def appList : App :=
  { cwd := [("d")],
    entries := [DirEntry.mk ("a") false, DirEntry.mk ("b") false],
    selected := 0, show_hidden := false, preview_path := none,
    preview_content := none, preview_scroll := 0, preview_truncated := false }

theorem c7_selection_saturation_witness :
    (App.selection_up^[3] { appList with selected := 0 }).selected = 0 ∧
    (App.selection_down^[3] { appList with selected := appList.entries.length - 1 }).selected
      = appList.entries.length - 1 :=
  c7_selection_saturation appList 3 (by decide)

/-! ## Invariants (C6, C10) -/

/-- The selection-index invariant of C6. -/
def selectionInvariant (a : App) : Prop :=
  (a.entries ≠ [] → a.selected < a.entries.length) ∧
  (a.entries = [] → a.selected = 0)

instance : DecidablePred selectionInvariant := fun a => by
  unfold selectionInvariant
  infer_instance

/-- After `refresh_entries` the selection is clamped:
`selected = old.min(len.saturating_sub(1))`. -/
theorem refresh_selected_eq (fs : FS) (a : App) :
    (App.refresh_entries fs a).selected
      = min a.selected ((App.refresh_entries fs a).entries.length - 1) := rfl

theorem refresh_selectionInvariant (fs : FS) (a : App) :
    selectionInvariant (App.refresh_entries fs a) := by
  constructor
  · intro h
    rw [refresh_selected_eq]
    have hlen : (App.refresh_entries fs a).entries.length ≠ 0 := by
      simpa [List.length_eq_zero] using h
    omega
  · intro h
    rw [refresh_selected_eq, h]
    simp

theorem selectionInvariant_congr {a b : App} (hent : b.entries = a.entries)
    (hsel : b.selected = a.selected) (h : selectionInvariant a) :
    selectionInvariant b := by
  unfold selectionInvariant at h ⊢
  rw [hent, hsel]
  exact h

theorem selection_up_selectionInvariant {a : App} (h : selectionInvariant a) :
    selectionInvariant a.selection_up := by
  unfold App.selection_up
  split
  · exact h
  · next hne =>
    have hlen : a.entries.length ≠ 0 := by simpa [List.length_eq_zero] using hne
    have h1 := h.1 hne
    constructor
    · intro _
      show a.selected - 1 < a.entries.length
      omega
    · intro hc
      exact absurd hc hne

theorem selection_down_selectionInvariant {a : App} (h : selectionInvariant a) :
    selectionInvariant a.selection_down := by
  unfold App.selection_down
  split
  · exact h
  · next hne =>
    have hlen : a.entries.length ≠ 0 := by simpa [List.length_eq_zero] using hne
    constructor
    · intro _
      show min (a.selected + 1) (a.entries.length - 1) < a.entries.length
      omega
    · intro hc
      exact absurd hc hne

theorem preview_scroll_up_selectionInvariant {a : App} (h : selectionInvariant a) :
    selectionInvariant a.preview_scroll_up := by
  unfold App.preview_scroll_up
  split
  · exact selectionInvariant_congr rfl rfl h
  · exact h

theorem preview_scroll_down_selectionInvariant {a : App} (h : selectionInvariant a) :
    selectionInvariant a.preview_scroll_down := by
  unfold App.preview_scroll_down
  split
  · exact selectionInvariant_congr rfl rfl h
  · exact h

theorem enter_selected_selectionInvariant (fs : FS) {a : App}
    (h : selectionInvariant a) : selectionInvariant (App.enter_selected fs a) := by
  rcases hg : a.entries[a.selected]? with _ | e
  · simp only [App.enter_selected, hg]
    exact h
  · simp only [App.enter_selected, hg]
    split
    · split
      · exact h
      · exact refresh_selectionInvariant fs _
    · split
      · split
        · exact refresh_selectionInvariant fs _
        · exact h
      · split
        · exact selectionInvariant_congr rfl rfl h
        · exact h

/-- C6: after every transition of the navigation state machine (and in the
initial state), a non-empty listing has `selected < entries.length`, and an
empty listing has `selected = 0`. -/
theorem c6_selection_invariant :
    (∀ fs p, selectionInvariant (App.new fs p)) ∧
    (∀ fs ev a, selectionInvariant a → selectionInvariant (step fs ev a)) := by
  refine ⟨fun fs p => refresh_selectionInvariant fs _, fun fs ev a h => ?_⟩
  cases ev with
  | up => exact selection_up_selectionInvariant h
  | down => exact selection_down_selectionInvariant h
  | charK =>
    simp only [step]
    split
    · exact preview_scroll_up_selectionInvariant h
    · exact selection_up_selectionInvariant h
  | charJ =>
    simp only [step]
    split
    · exact preview_scroll_down_selectionInvariant h
    · exact selection_down_selectionInvariant h
  | activate => exact enter_selected_selectionInvariant fs h
  | goParent =>
    simp only [step]
    split
    · exact h
    · exact refresh_selectionInvariant fs _
  | toggleHidden => exact refresh_selectionInvariant fs _
  | escape =>
    simp only [step]
    split
    · exact selectionInvariant_congr rfl rfl h
    · exact h
  | other => exact h

theorem c6_selection_invariant_witness :
    selectionInvariant appEmpty ∧ selectionInvariant (step fsErr Event.up appEmpty) :=
  ⟨by decide, c6_selection_invariant.2 fsErr Event.up appEmpty (by decide)⟩

/-- The preview-coupling invariant of C10. -/
def previewCoupled (a : App) : Prop :=
  (a.preview_path.isSome ↔ a.preview_content.isSome) ∧
  (a.preview_path = none → a.preview_content = none →
    a.preview_scroll = 0 ∧ a.preview_truncated = false)

instance : DecidablePred previewCoupled := fun a => by
  unfold previewCoupled
  infer_instance

theorem previewCoupled_congr {a b : App} (hp : b.preview_path = a.preview_path)
    (hc : b.preview_content = a.preview_content)
    (hs : b.preview_scroll = a.preview_scroll)
    (ht : b.preview_truncated = a.preview_truncated)
    (h : previewCoupled a) : previewCoupled b := by
  unfold previewCoupled at h ⊢
  rw [hp, hc, hs, ht]
  exact h

theorem refresh_previewCoupled (fs : FS) {a : App} (h : previewCoupled a) :
    previewCoupled (App.refresh_entries fs a) :=
  previewCoupled_congr rfl rfl rfl rfl h

theorem selection_up_previewCoupled {a : App} (h : previewCoupled a) :
    previewCoupled a.selection_up := by
  unfold App.selection_up
  split
  · exact h
  · exact previewCoupled_congr rfl rfl rfl rfl h

theorem selection_down_previewCoupled {a : App} (h : previewCoupled a) :
    previewCoupled a.selection_down := by
  unfold App.selection_down
  split
  · exact h
  · exact previewCoupled_congr rfl rfl rfl rfl h

theorem preview_scroll_up_previewCoupled {a : App} (h : previewCoupled a) :
    previewCoupled a.preview_scroll_up := by
  unfold App.preview_scroll_up
  split
  · next hc =>
    refine ⟨h.1, fun _ hcn => ?_⟩
    simp only at hcn
    rw [hcn] at hc
    simp at hc
  · exact h

theorem preview_scroll_down_previewCoupled {a : App} (h : previewCoupled a) :
    previewCoupled a.preview_scroll_down := by
  unfold App.preview_scroll_down
  split
  · next hc =>
    refine ⟨h.1, fun _ hcn => ?_⟩
    simp only at hcn
    rw [hcn] at hc
    simp at hc
  · exact h

theorem enter_selected_previewCoupled (fs : FS) {a : App}
    (h : previewCoupled a) : previewCoupled (App.enter_selected fs a) := by
  rcases hg : a.entries[a.selected]? with _ | e
  · simp only [App.enter_selected, hg]
    exact h
  · simp only [App.enter_selected, hg]
    split
    · split
      · exact h
      · exact refresh_previewCoupled fs h
    · split
      · split
        · exact refresh_previewCoupled fs h
        · exact h
      · split
        · exact ⟨by simp, by simp⟩
        · exact h

/-- C10: every transition (and the initial state) preserves the preview
coupling: `preview_path` is `Some` iff `preview_content` is `Some`, and
when both are `None` the scroll is 0 and the truncation flag is false. -/
theorem c10_preview_coupling :
    (∀ fs p, previewCoupled (App.new fs p)) ∧
    (∀ fs ev a, previewCoupled a → previewCoupled (step fs ev a)) := by
  refine ⟨fun fs p => refresh_previewCoupled fs ⟨by simp, by simp⟩, fun fs ev a h => ?_⟩
  cases ev with
  | up => exact selection_up_previewCoupled h
  | down => exact selection_down_previewCoupled h
  | charK =>
    simp only [step]
    split
    · exact preview_scroll_up_previewCoupled h
    · exact selection_up_previewCoupled h
  | charJ =>
    simp only [step]
    split
    · exact preview_scroll_down_previewCoupled h
    · exact selection_down_previewCoupled h
  | activate => exact enter_selected_previewCoupled fs h
  | goParent =>
    simp only [step]
    split
    · exact h
    · exact refresh_previewCoupled fs h
  | toggleHidden => exact refresh_previewCoupled fs h
  | escape =>
    simp only [step]
    split
    · exact ⟨by simp [App.close_preview], by simp [App.close_preview]⟩
    · exact h
  | other => exact h

theorem c10_preview_coupling_witness :
    previewCoupled appPreview ∧ previewCoupled (step fsErr Event.escape appPreview) :=
  ⟨by decide, c10_preview_coupling.2 fsErr Event.escape appPreview (by decide)⟩

/-- C4: for every readable directory, the lister returns the synthetic `..`
first iff the path has a parent, then the subdirectory group, then the file
group, each group a permutation of the corresponding classified raw entries
that is sorted by byte-wise comparison of the lowercased names (`entryLe`). -/
theorem c4_listing_order (fs : FS) (p : FsPath) (raws : List (Option RawEntry))
    (h : fs.readDir p = .ok raws) :
    ∃ d f,
      read_dir_entries fs p =
        (if p = [] then [] else [DirEntry.mk (String.mk ['.', '.']) true]) ++ d ++ f ∧
      List.Perm d (((raws.filterMap id).map
          (fun r => DirEntry.mk r.name (r.fileType.getD false))).filter
            (fun e => e.is_dir)) ∧
      List.Sorted entryLe d ∧
      List.Perm f (((raws.filterMap id).map
          (fun r => DirEntry.mk r.name (r.fileType.getD false))).filter
            (fun e => !e.is_dir)) ∧
      List.Sorted entryLe f := by
  refine ⟨_, _, ?_, List.perm_insertionSort entryLe _, List.sorted_insertionSort entryLe _,
    List.perm_insertionSort entryLe _, List.sorted_insertionSort entryLe _⟩
  simp only [read_dir_entries, h]

/-- A filesystem holding the spec scenario directory `["b.txt", "A", ".git"]`. -/
def fsScenario : FS :=
  { readDir := fun q =>
      if q = [("home")] then
        .ok [some (RawEntry.mk ("b.txt") (some false)),
             some (RawEntry.mk ("A") (some true)),
             some (RawEntry.mk (".git") (some true))]
      else .ok []
    isDir := fun _ => false
    isFile := fun _ => false
    readFile := fun _ => .error ("")
    hl := fun _ _ => none }

theorem c4_listing_order_witness :
    ∃ d f,
      read_dir_entries fsScenario [("home")] =
        (if ([("home")] : FsPath) = [] then []
         else [DirEntry.mk (String.mk ['.', '.']) true]) ++ d ++ f ∧
      List.Perm d ((([some (RawEntry.mk ("b.txt") (some false)),
             some (RawEntry.mk ("A") (some true)),
             some (RawEntry.mk (".git") (some true))].filterMap id).map
          (fun r => DirEntry.mk r.name (r.fileType.getD false))).filter
            (fun e => e.is_dir)) ∧
      List.Sorted entryLe d ∧
      List.Perm f ((([some (RawEntry.mk ("b.txt") (some false)),
             some (RawEntry.mk ("A") (some true)),
             some (RawEntry.mk (".git") (some true))].filterMap id).map
          (fun r => DirEntry.mk r.name (r.fileType.getD false))).filter
            (fun e => !e.is_dir)) ∧
      List.Sorted entryLe f :=
  c4_listing_order fsScenario [("home")]
    [some (RawEntry.mk ("b.txt") (some false)),
     some (RawEntry.mk ("A") (some true)),
     some (RawEntry.mk (".git") (some true))] rfl

/-! ## Preview-loader lemmas (C1, C5) -/

/-- A successful UTF-8 decode of a non-empty byte list yields at least one
character (every encoded scalar consumes at least one byte). -/
theorem utf8Decode_ok_ne_nil {bs : List Nat} {cs : List Char}
    (h1 : bs ≠ []) (h2 : utf8Decode bs = some cs) : cs ≠ [] := by
  cases bs with
  | nil => exact absurd rfl h1
  | cons b rest =>
    rw [utf8Decode] at h2
    split at h2
    · simp at h2
    · rcases Option.map_eq_some'.mp h2 with ⟨cs', hcs', rfl⟩
      simp

theorem linesWithEndingsAux_ne_nil :
    ∀ (cs acc : List Char), acc ≠ [] ∨ cs ≠ [] → linesWithEndingsAux acc cs ≠ [] := by
  intro cs
  induction cs with
  | nil =>
    intro acc h
    rcases h with h | h
    · simp [linesWithEndingsAux, h]
    · exact absurd rfl h
  | cons c cs ih =>
    intro acc h
    simp only [linesWithEndingsAux]
    split
    · simp
    · exact ih (c :: acc) (Or.inl (by simp))

theorem linesWithEndings_ne_nil {s : String} (h : s.data ≠ []) :
    linesWithEndings s ≠ [] := by
  unfold linesWithEndings
  intro hc
  exact linesWithEndingsAux_ne_nil s.data [] (Or.inr h)
    (List.map_eq_nil_iff.mp hc)

/-- Normal form of `load_file_preview` on a successful, non-empty read:
the binary test, the UTF-8 decode and the highlighting all operate on the
(possibly truncated) `text`, and the `truncated` flag is returned only on
the successful highlighting path. -/
theorem load_file_preview_ok (hl : String → Option (List (SynStyle × String)))
    (content : List Nat) (hne : content ≠ []) :
    load_file_preview hl (.ok content) =
      (if (if content.length > MAX_PREVIEW_BYTES then content.take MAX_PREVIEW_BYTES
           else content).countP (fun b => !is_ascii_graphic b && !isPreviewWhitespace b)
          > (if content.length > MAX_PREVIEW_BYTES then content.take MAX_PREVIEW_BYTES
             else content).length / 4
       then ([plain_line ("(binary file)")], false)
       else
         match utf8Decode (if content.length > MAX_PREVIEW_BYTES
             then content.take MAX_PREVIEW_BYTES else content) with
         | none => ([plain_line ("(not valid UTF-8)")], false)
         | some chars =>
           ((linesWithEndings (String.mk chars)).map (highlightLine hl),
            decide (content.length > MAX_PREVIEW_BYTES))) := by
  rw [load_file_preview, if_neg hne]

/-- C5: for a readable, non-empty file, the loader emits exactly the single
"(binary file)" line with no highlighting attempted — the output is that
line for every possible highlighter — iff the count of bytes in the
(possibly truncated) content that are neither printable ASCII nor one of
space, tab, CR, LF exceeds a quarter of the (possibly truncated) length. -/
theorem c5_binary_heuristic (content : List Nat) (hne : content ≠ []) :
    ((∀ hl, (load_file_preview hl (.ok content)).1 = [plain_line ("(binary file)")]) ↔
      (if content.length > MAX_PREVIEW_BYTES then content.take MAX_PREVIEW_BYTES
       else content).countP (fun b => !is_ascii_graphic b && !isPreviewWhitespace b)
        > (if content.length > MAX_PREVIEW_BYTES then content.take MAX_PREVIEW_BYTES
           else content).length / 4) := by
  have htne : (if content.length > MAX_PREVIEW_BYTES then content.take MAX_PREVIEW_BYTES
      else content) ≠ [] := by
    split
    · next hgt =>
      have hlen : (content.take MAX_PREVIEW_BYTES).length = MAX_PREVIEW_BYTES := by
        rw [List.length_take]
        omega
      intro hc
      rw [hc] at hlen
      simp [MAX_PREVIEW_BYTES] at hlen
    · exact hne
  constructor
  · intro hall
    by_contra hcond
    have h1 := hall (fun _ => some [])
    rw [load_file_preview_ok _ _ hne, if_neg hcond] at h1
    rcases hdc : utf8Decode (if content.length > MAX_PREVIEW_BYTES
        then content.take MAX_PREVIEW_BYTES else content) with _ | chars
    · rw [hdc] at h1
      have h1a : ([plain_line ("(not valid UTF-8)")], false).1
          = [plain_line ("(binary file)")] := h1
      exact absurd h1a (by decide)
    · rw [hdc] at h1
      have h1a : ((linesWithEndings (String.mk chars)).map (highlightLine (fun _ => some [])),
          decide (content.length > MAX_PREVIEW_BYTES)).1
          = [plain_line ("(binary file)")] := h1
      have hchars : chars ≠ [] := utf8Decode_ok_ne_nil htne hdc
      rcases hl0 : linesWithEndings (String.mk chars) with _ | ⟨l, ls⟩
      · exact linesWithEndings_ne_nil (by simpa using hchars) hl0
      · rw [hl0] at h1a
        simp [highlightLine, plain_line, Span.raw] at h1a
  · intro hcond hl
    rw [load_file_preview_ok _ _ hne, if_pos hcond]

theorem c5_binary_heuristic_witness :
    (load_file_preview hlNone (.ok [0])).1 = [plain_line ("(binary file)")] :=
  ((c5_binary_heuristic [0] (by decide)).mpr (by decide)) hlNone

/-- C1 (amended): for every readable file whose content exceeds 512 KiB, all
checks after the truncation (binary heuristic, UTF-8 decode, highlighting)
operate on the first 512 KiB only — the emitted lines equal the lines for
the truncated content — and `truncated == true` is returned exactly when
the truncated slice passes the binary heuristic and decodes as UTF-8; the
"(binary file)" and "(not valid UTF-8)" placeholder branches return
`truncated == false`. -/
theorem c1_truncation_amended (hl : String → Option (List (SynStyle × String)))
    (content : List Nat) (h : content.length > MAX_PREVIEW_BYTES) :
    (load_file_preview hl (.ok content)).1
      = (load_file_preview hl (.ok (content.take MAX_PREVIEW_BYTES))).1 ∧
    ((load_file_preview hl (.ok content)).2 = true ↔
      ((content.take MAX_PREVIEW_BYTES).countP
          (fun b => !is_ascii_graphic b && !isPreviewWhitespace b)
        ≤ (content.take MAX_PREVIEW_BYTES).length / 4 ∧
       utf8Decode (content.take MAX_PREVIEW_BYTES) ≠ none)) := by
  have hne : content ≠ [] := by
    intro hc
    rw [hc] at h
    simp [MAX_PREVIEW_BYTES] at h
  have hlen : (content.take MAX_PREVIEW_BYTES).length = MAX_PREVIEW_BYTES := by
    rw [List.length_take]
    omega
  have hne2 : content.take MAX_PREVIEW_BYTES ≠ [] := by
    intro hc
    rw [hc] at hlen
    simp [MAX_PREVIEW_BYTES] at hlen
  have hnotgt : ¬ (content.take MAX_PREVIEW_BYTES).length > MAX_PREVIEW_BYTES := by
    omega
  rw [load_file_preview_ok hl content hne, load_file_preview_ok hl _ hne2]
  simp only [if_pos h, if_neg hnotgt, decide_eq_true h, decide_eq_false hnotgt]
  by_cases hb : (content.take MAX_PREVIEW_BYTES).countP
      (fun b => !is_ascii_graphic b && !isPreviewWhitespace b)
      > (content.take MAX_PREVIEW_BYTES).length / 4
  · rw [if_pos hb, if_pos hb]
    refine ⟨rfl, ?_⟩
    constructor
    · intro hfalse
      exact absurd hfalse (by simp)
    · rintro ⟨h1, -⟩
      exact absurd h1 (by omega)
  · rw [if_neg hb, if_neg hb]
    rcases hdc : utf8Decode (content.take MAX_PREVIEW_BYTES) with _ | chars
    · exact ⟨rfl, by simp⟩
    · refine ⟨rfl, ?_⟩
      constructor
      · intro _
        exact ⟨by omega, by simp⟩
      · intro _
        rfl

/-- C1 (counterexample to the claim as stated): a readable file of
512 KiB + 1 zero bytes exceeds the limit, yet `load_file_preview` returns
`truncated == false`, because the truncated slice trips the binary
heuristic and that placeholder branch hard-codes `false`. -/
theorem c1_counterexample :
    (List.replicate (MAX_PREVIEW_BYTES + 1) (0 : Nat)).length > MAX_PREVIEW_BYTES ∧
    (load_file_preview hlNone (.ok (List.replicate (MAX_PREVIEW_BYTES + 1) (0 : Nat)))).2
      = false := by
  have hlen : (List.replicate (MAX_PREVIEW_BYTES + 1) (0 : Nat)).length
      = MAX_PREVIEW_BYTES + 1 := List.length_replicate _ _
  have hgt : (List.replicate (MAX_PREVIEW_BYTES + 1) (0 : Nat)).length > MAX_PREVIEW_BYTES := by
    rw [hlen]
    exact Nat.lt_succ_self _
  have hne : List.replicate (MAX_PREVIEW_BYTES + 1) (0 : Nat) ≠ [] := by
    intro hc
    rw [hc] at hgt
    exact Nat.not_lt_zero _ hgt
  refine ⟨hgt, ?_⟩
  rw [load_file_preview_ok hlNone _ hne]
  have htake : (List.replicate (MAX_PREVIEW_BYTES + 1) (0 : Nat)).take MAX_PREVIEW_BYTES
      = List.replicate MAX_PREVIEW_BYTES 0 := by
    rw [List.take_replicate]
    rw [Nat.min_eq_left (Nat.le_succ _)]
  simp only [if_pos hgt, htake]
  have hcount : (List.replicate MAX_PREVIEW_BYTES (0 : Nat)).countP
      (fun b => !is_ascii_graphic b && !isPreviewWhitespace b) = MAX_PREVIEW_BYTES := by
    rw [List.countP_replicate]
    simp [is_ascii_graphic, isPreviewWhitespace]
  rw [hcount, List.length_replicate]
  have hquarter : MAX_PREVIEW_BYTES > MAX_PREVIEW_BYTES / 4 := by decide
  rw [if_pos hquarter]

theorem c1_truncation_amended_witness :
    (List.replicate (MAX_PREVIEW_BYTES + 1) (1 : Nat)).length > MAX_PREVIEW_BYTES ∧
    ((load_file_preview hlNone (.ok (List.replicate (MAX_PREVIEW_BYTES + 1) (1 : Nat)))).1
        = (load_file_preview hlNone
            (.ok ((List.replicate (MAX_PREVIEW_BYTES + 1) (1 : Nat)).take
              MAX_PREVIEW_BYTES))).1 ∧
      ((load_file_preview hlNone (.ok (List.replicate (MAX_PREVIEW_BYTES + 1) (1 : Nat)))).2
          = true ↔
        (((List.replicate (MAX_PREVIEW_BYTES + 1) (1 : Nat)).take
            MAX_PREVIEW_BYTES).countP
            (fun b => !is_ascii_graphic b && !isPreviewWhitespace b)
          ≤ (((List.replicate (MAX_PREVIEW_BYTES + 1) (1 : Nat)).take
              MAX_PREVIEW_BYTES)).length / 4 ∧
         utf8Decode ((List.replicate (MAX_PREVIEW_BYTES + 1) (1 : Nat)).take
            MAX_PREVIEW_BYTES) ≠ none))) :=
  ⟨by rw [List.length_replicate]; exact Nat.lt_succ_self _,
   c1_truncation_amended hlNone (List.replicate (MAX_PREVIEW_BYTES + 1) (1 : Nat))
     (by rw [List.length_replicate]; exact Nat.lt_succ_self _)⟩

/-! ## Hidden-toggle round trip (C2) -/

/-- The stored listing is what `refresh_entries` would compute for the
current directory and hidden policy — true of every reachable state. -/
def entriesInSync (fs : FS) (a : App) : Prop :=
  a.entries =
    (if a.show_hidden then read_dir_entries fs a.cwd
     else (read_dir_entries fs a.cwd).filter (fun e =>
       decide (e.name = ("..")) || !(startsWithDot e.name)))

instance (fs : FS) : DecidablePred (entriesInSync fs) := fun a => by
  unfold entriesInSync
  infer_instance

/-- C2 (amended): toggling hidden-file visibility twice always restores the
original listing; when hidden files were initially hidden
(`show_hidden = false`) the whole state is restored, so the selection again
points at the original entry.  (Starting from `show_hidden = true` the
intermediate clamp `selected.min(filtered_len - 1)` can lower the index
permanently — see the counterexample.) -/
theorem c2_toggle_roundtrip_amended (fs : FS) (a : App)
    (hsync : entriesInSync fs a) (hinv : selectionInvariant a) :
    (step fs Event.toggleHidden (step fs Event.toggleHidden a)).entries = a.entries ∧
    (a.show_hidden = false →
      step fs Event.toggleHidden (step fs Event.toggleHidden a) = a) := by
  obtain ⟨cwd, ents, sel, sh, pp, pc, ps, pt⟩ := a
  unfold entriesInSync at hsync
  unfold selectionInvariant at hinv
  simp only at hsync hinv
  cases sh with
  | false =>
    simp only [step, App.refresh_entries]
    simp only [Bool.not_false, Bool.not_true, if_true, if_false]
    constructor
    · exact hsync.symm
    · intro _
      rw [← hsync]
      have hle : ents.length ≤ (read_dir_entries fs cwd).length := by
        rw [hsync]
        simp [List.length_filter_le]
      simp only [App.mk.injEq, true_and, and_true]
      rcases hinv with ⟨h1, h2⟩
      by_cases hents : ents = []
      · have hsel := h2 hents
        subst hsel
        omega
      · have hsel := h1 hents
        have hlen : ents.length ≠ 0 := by
          simpa [List.length_eq_zero] using hents
        omega
  | true =>
    simp only [step, App.refresh_entries]
    simp only [Bool.not_false, Bool.not_true, if_true, if_false]
    constructor
    · exact hsync.symm
    · intro hcontra
      exact absurd hcontra (by simp)

/-- A filesystem whose directory `d` holds three dotfiles and `z`. -/
def fsToggle : FS :=
  { readDir := fun p =>
      if p = [("d")] then
        .ok [some (RawEntry.mk (".a") (some false)),
             some (RawEntry.mk (".b") (some false)),
             some (RawEntry.mk (".c") (some false)),
             some (RawEntry.mk ("z") (some false))]
      else .ok []
    isDir := fun _ => false
    isFile := fun _ => false
    readFile := fun _ => .error ("")
    hl := fun _ _ => none }

/-- A state over `fsToggle` showing hidden files, with the last entry
(`z`, index 4 of 5) selected. -/
def appToggle : App :=
  { cwd := [("d")],
    entries := read_dir_entries fsToggle [("d")],
    selected := 4, show_hidden := true,
    preview_path := none, preview_content := none,
    preview_scroll := 0, preview_truncated := false }

/-- C2 (counterexample to the claim as stated): from `appToggle`
(`show_hidden = true`, entry `z` selected at index 4), toggling hidden
visibility twice restores the listing — `z` is still present at index 4 —
but the selection ends at index 1 (the dotfile `.a`), not at `z`: the
intermediate listing has only 2 entries, so the clamp lowers the index. -/
theorem c2_toggle_counterexample :
    appToggle.entries[4]? = some (DirEntry.mk ("z") false) ∧
    appToggle.selected = 4 ∧
    (step fsToggle Event.toggleHidden (step fsToggle Event.toggleHidden appToggle)).entries
      = appToggle.entries ∧
    (step fsToggle Event.toggleHidden (step fsToggle Event.toggleHidden appToggle)).entries[4]?
      = some (DirEntry.mk ("z") false) ∧
    (step fsToggle Event.toggleHidden (step fsToggle Event.toggleHidden appToggle)).selected
      = 1 ∧
    (step fsToggle Event.toggleHidden (step fsToggle Event.toggleHidden appToggle)).entries[1]?
      = some (DirEntry.mk (".a") false) := by
  decide

/-- A state over `fsToggle` hiding hidden files, with `z` (index 1 of 2)
selected. -/
def appToggleOff : App :=
  { cwd := [("d")],
    entries := (read_dir_entries fsToggle [("d")]).filter (fun e =>
      decide (e.name = ("..")) || !(startsWithDot e.name)),
    selected := 1, show_hidden := false,
    preview_path := none, preview_content := none,
    preview_scroll := 0, preview_truncated := false }

theorem c2_toggle_roundtrip_amended_witness :
    (step fsToggle Event.toggleHidden (step fsToggle Event.toggleHidden appToggleOff)).entries
      = appToggleOff.entries ∧
    (appToggleOff.show_hidden = false →
      step fsToggle Event.toggleHidden (step fsToggle Event.toggleHidden appToggleOff)
        = appToggleOff) :=
  c2_toggle_roundtrip_amended fsToggle appToggleOff (by decide) (by decide)
